import Mathlib

set_option maxRecDepth 10000

/-!
Verification development for the Formula 1 results/telemetry analysis core
(modules/utils.py, modules/analysis.py, modules/telemetry.py).

The pandas/numpy code is shallowly embedded as pure functions on lists:
a DataFrame is a list of typed rows, a numeric column that may hold NaN is
an `Option ℚ` field (NaN = `none`), float arithmetic is modelled by exact
rational arithmetic, and a column of booleans is a `List Bool` mask.
String processing is embedded on `List Char` so that every definition
evaluates inside the kernel.
-/

/-! ### Character/string helpers (models of the Python string methods used) -/

/-- Whitespace in the sense of Python `str.strip`: space, tab, LF, VT, FF, CR. -/
def isPyWs (c : Char) : Bool :=
  c.toNat = 32 || (9 ≤ c.toNat && c.toNat ≤ 13)

/-- Model of Python `str.strip()`. -/
def pyStrip (cs : List Char) : List Char :=
  ((cs.dropWhile isPyWs).reverse.dropWhile isPyWs).reverse

/-- Model of Python `s.replace(c, '')`: remove every occurrence of `c`. -/
def removeChar (c : Char) (cs : List Char) : List Char :=
  cs.filter (fun d => !(d = c : Bool))

/-- Model of Python `s.split(sep)` for a one-character separator. -/
def splitOnChar (p : Char → Bool) (cs : List Char) : List (List Char) :=
  cs.foldr
    (fun c acc =>
      match acc with
      | [] => [[c]]
      | g :: gs => if p c then [] :: g :: gs else (c :: g) :: gs)
    [[]]

/-! ### Time parsing (modules/utils.py) -/

/-- Value of a list of decimal digit characters, most significant first. -/
def digitsToNat (cs : List Char) : ℕ :=
  cs.foldl (fun n c => 10 * n + (c.toNat - 48)) 0

/-- True when `cs` is a nonempty run of decimal digits. -/
def isDigits (cs : List Char) : Bool :=
  !cs.isEmpty && cs.all (fun c => c.isDigit)

/-- Mantissa part of a Python float literal: `digits`, `digits.digits`,
`digits.` or `.digits`. -/
def parseMantissa (m : List Char) : Option ℚ :=
  match splitOnChar (fun c => c = '.') m with
  | [a] => if isDigits a then some ((digitsToNat a : ℚ)) else none
  | [a, b] =>
      if (a.isEmpty || isDigits a) && (b.isEmpty || isDigits b)
          && !(a.isEmpty && b.isEmpty) then
        some ((digitsToNat a : ℚ) + (digitsToNat b : ℚ) / 10 ^ b.length)
      else none
  | _ => none

/-- Signed run of decimal digits, no surrounding whitespace (used for the
exponent part of a float literal). -/
def pyIntCore (s : List Char) : Option ℤ :=
  let (sgn, body) :=
    match s with
    | '-' :: rest => ((-1 : ℤ), rest)
    | '+' :: rest => (1, rest)
    | _ => (1, s)
  if isDigits body then some (sgn * (digitsToNat body : ℤ)) else none

/-- Model of Python `int(s)` on strings: optional surrounding whitespace,
optional sign, then decimal digits (digit-group underscores are not
modelled; none of the analysed inputs use them). -/
def pyInt (s : List Char) : Option ℤ :=
  pyIntCore (pyStrip s)

/-- Model of Python `float(s)` on strings: optional surrounding whitespace,
optional sign, decimal mantissa with optional fraction part and optional
decimal exponent.  Non-finite literals (`inf`, `nan`) and digit-group
underscores are not modelled; none of the analysed inputs use them. -/
def pyFloat (s : List Char) : Option ℚ :=
  let t := pyStrip s
  let (sgn, body) :=
    match t with
    | '-' :: rest => ((-1 : ℚ), rest)
    | '+' :: rest => (1, rest)
    | _ => (1, t)
  match splitOnChar (fun c => c = 'e' || c = 'E') body with
  | [m] => (parseMantissa m).map (fun q => sgn * q)
  | [m, e] => do
      let mq ← parseMantissa m
      let ez ← pyIntCore e
      pure (sgn * mq * 10 ^ ez)
  | _ => none

/-- Embedding of `utils.convert_time_to_seconds`.  The Python function takes
any cell value; a missing cell (`pd.isna`) is handled by callers mapping
`none` through `Option.bind`, so the core function takes the string itself.
All `+` characters are removed (Python `str.replace`), the result is
stripped, sentinels give `None`, then the `S` / `M:SS` / `H:MM:SS` forms are
parsed; any parse failure gives `None` (the `try`/`except` around the three
branches). -/
def convert_time_to_seconds (timeStr : String) : Option ℚ :=
  let s := pyStrip (removeChar '+' timeStr.toList)
  if s = "\\N".toList ∨ s = [] ∨ s = "None".toList then none
  else
    match splitOnChar (fun c => c = ':') s with
    | [p] => pyFloat p
    | [m, sec] => do
        let mi ← pyInt m
        let se ← pyFloat sec
        pure ((mi : ℚ) * 60 + se)
    | [h, m, sec] => do
        let hi ← pyInt h
        let mi ← pyInt m
        let se ← pyFloat sec
        pure ((hi : ℚ) * 3600 + (mi : ℚ) * 60 + se)
    | _ => none

/-! ### The sort used by pandas `DataFrame.sort_values`

`sort_values(col)` computes `nargsort`, which runs numpy's default
`quicksort` (introsort) ascending over the key column and, for
`ascending=False`, reverses the resulting indexer.  For frames of at most
16 rows numpy's introsort is exactly its stable insertion sort, so the
ascending phase is modelled by the stable `List.insertionSort` on the key;
a descending sort is the reverse of that. -/

/-- Ascending stable sort by a key, as performed by numpy's insertion sort
(the introsort leaf used for at most 16 elements). -/
def sortValuesAsc {α : Type} {K : Type} [LinearOrder K] (key : α → K) (l : List α) : List α :=
  l.insertionSort (fun a b => key a ≤ key b)

/-- Descending sort as performed by pandas `sort_values(ascending=False)`:
the reverse of the ascending stable sort. -/
def sort_values_desc {α : Type} {K : Type} [LinearOrder K] (key : α → K) (l : List α) : List α :=
  (sortValuesAsc key l).reverse

/-! ### Gap engine (analysis.add_position_gaps) -/

/-- The columns `add_position_gaps` works on (`use_cols`); `positionOrder`
and `milliseconds` after `pd.to_numeric(errors='coerce')`. -/
structure GapRow where
  raceId : ℤ
  driverId : ℤ
  positionOrder : Option ℚ
  time : Option String
  milliseconds : Option ℚ
  deriving DecidableEq, Repr

/-- Sort key for `sort_values('positionOrder')`: NaN keys are placed last
(`na_position='last'`), modelled by `⊤` in `WithTop ℚ`. -/
def poKey (r : GapRow) : WithTop ℚ :=
  match r.positionOrder with
  | none => (⊤ : WithTop ℚ)
  | some q => (q : WithTop ℚ)

/-- Fallback of the `gap_to_win` closure when no textual gap applies: the
difference to the winner's milliseconds clamped to `≥ 0` when both are
known; else `0` for the winner itself and NaN otherwise. -/
def gapFallback (winMs : Option ℚ) (row : GapRow) : Option ℚ :=
  match row.milliseconds, winMs with
  | some ms, some wms => some (max 0 ((ms - wms) / 1000))
  | _, _ => if row.positionOrder = some 1 then some 0 else none

/-- Branch order of the `gap_to_win` closure: the textual gap wins when the
stripped time string starts with `'+'` and parses. -/
def gap_to_win (winMs : Option ℚ) (row : GapRow) : Option ℚ :=
  match row.time with
  | some t =>
      if (pyStrip t.toList).headD ' ' = '+' then
        match convert_time_to_seconds t with
        | some sec => some sec
        | none => gapFallback winMs row
      else gapFallback winMs row
  | none => gapFallback winMs row

/-- NaN-propagating subtraction of two float cells. -/
def optSub (a b : Option ℚ) : Option ℚ :=
  match a, b with
  | some x, some y => some (x - y)
  | _, _ => none

/-- Pair every row of the (already sorted) race group with its
`gap_to_winner_s` and `gap_to_next_s` columns:
`gap_to_next_s = gap_to_winner_s.shift(-1) - gap_to_winner_s` with the last
entry forced to NaN. -/
def attachGaps (winMs : Option ℚ) : List GapRow → List (GapRow × Option ℚ × Option ℚ)
  | [] => []
  | r :: rest =>
      (r, gap_to_win winMs r,
        match rest with
        | [] => none
        | r2 :: _ => optSub (gap_to_win winMs r2) (gap_to_win winMs r)) :: attachGaps winMs rest

/-- Embedding of the `compute_for_race` closure: sort the race group by
`positionOrder`, read the winner's milliseconds off the first
`positionOrder == 1` row, then attach both gap columns. -/
def winnerMs (gr : List GapRow) : Option ℚ :=
  match gr.filter (fun r => decide (r.positionOrder = some 1)) with
  | [] => none
  | r :: _ => r.milliseconds

def compute_for_race (g : List GapRow) : List (GapRow × Option ℚ × Option ℚ) :=
  attachGaps (winnerMs (sortValuesAsc poKey g)) (sortValuesAsc poKey g)

/-- One row of the `out` frame returned by the groupby-apply:
`['raceId', 'driverId', 'gap_to_winner_s', 'gap_to_next_s']`. -/
structure GapOut where
  raceId : ℤ
  driverId : ℤ
  gtw : Option ℚ
  gtn : Option ℚ
  deriving DecidableEq, Repr

/-- The sorted distinct `raceId` keys of the groupby (`sort=True`). -/
def gapRaceIds (g : List GapRow) : List ℤ :=
  sortValuesAsc id ((g.map (fun r => r.raceId)).dedup)

/-- The `out` frame: the per-race groups in ascending `raceId` order, each
processed by `compute_for_race` and restricted to the four output columns. -/
def gapOutBlocks (g : List GapRow) (ids : List ℤ) : List GapOut :=
  ids.flatMap (fun rid =>
    (compute_for_race (g.filter (fun r => decide (r.raceId = rid)))).map
      (fun t => GapOut.mk t.1.raceId t.1.driverId t.2.1 t.2.2))

/-- One left row of the final `merge(on=['raceId','driverId'], how='left')`:
every matching `out` row in order, or a single NaN-extended row when none
matches. -/
def gapMergeRow {α : Type} (out : List GapOut) (proj : α → GapRow) (a : α) :
    List (α × Option ℚ × Option ℚ) :=
  match out.filter
      (fun o => decide (o.raceId = (proj a).raceId ∧ o.driverId = (proj a).driverId)) with
  | [] => [(a, none, none)]
  | m :: ms => (m :: ms).map (fun o => (a, o.gtw, o.gtn))

/-- Embedding of `analysis.add_position_gaps`.  The groupby collects the
groups by ascending `raceId` (`sort=True` default), applies
`compute_for_race` to each, and the result is merged back onto the input
frame with `how='left'` on `(raceId, driverId)`, which preserves the left
row order and attaches the two new columns.  `proj` reads the `use_cols`
columns out of an arbitrary row type. -/
def add_position_gaps {α : Type} (proj : α → GapRow) (rows : List α) :
    List (α × Option ℚ × Option ℚ) :=
  rows.flatMap (gapMergeRow (gapOutBlocks (rows.map proj) (gapRaceIds (rows.map proj))) proj)

/-- The example race of the spec: ranks 1, 2, 3 with elapsed milliseconds
5400000, 5401200, 5403500 and no textual gap strings. -/
def exRaceC3 : List GapRow :=
  [ ⟨1, 11, some 1, none, some 5400000⟩
  , ⟨1, 12, some 2, none, some 5401200⟩
  , ⟨1, 13, some 3, none, some 5403500⟩ ]

/-! ### Driver table builder (analysis.build_driver_table)

Each input table is a list of typed rows.  The pipeline is split into one
definition per pandas statement group; a `BRow` carries every column the
final frame has.  Lean structures are total, so columns that the Python
frame only acquires later in the pipeline hold a throwaway placeholder
until the stage that creates them assigns them. -/

/-- Row of the `drivers` table. -/
structure DriverRow where
  driverId : ℤ
  forename : String
  surname : String
  deriving DecidableEq, Repr

/-- Row of the `races` table (the columns the pipeline selects). -/
structure RaceRow where
  raceId : ℤ
  year : ℤ
  name : String
  round : ℤ
  date : String
  deriving DecidableEq, Repr

/-- Row of the `results` table, numeric columns after
`pd.to_numeric(errors='coerce')` as `Option ℚ`. -/
structure ResultRow where
  raceId : ℤ
  driverId : ℤ
  grid : Option ℚ
  positionOrder : Option ℚ
  milliseconds : Option ℚ
  time : Option String
  fastestLapTime : Option String
  fastestLapSpeed : Option ℚ
  fastestLap : Option ℚ
  statusId : Option ℤ
  deriving DecidableEq, Repr

/-- Row of the optional `status` table. -/
structure StatusRow where
  statusId : ℤ
  status : String
  deriving DecidableEq, Repr

/-- Row of the optional `weather` table (`GP`, `Date`, `Precipitation`). -/
structure WeatherRow where
  gp : String
  date : String
  precipitation : Option ℚ
  deriving DecidableEq, Repr

/-- The dict of input tables; a missing optional table is the empty list,
exactly as `dfs.get('status', pd.DataFrame())` yields an empty frame. -/
structure DFS where
  drivers : List DriverRow
  results : List ResultRow
  races : List RaceRow
  status : List StatusRow
  weather : List WeatherRow
  deriving Repr

/-- Row of the built driver frame. -/
structure BRow where
  raceId : ℤ
  driverId : ℤ
  grid : Option ℚ
  positionOrder : Option ℚ
  milliseconds : Option ℚ
  time : Option String
  fastestLapTime : Option String
  statusId : Option ℤ
  year : ℤ
  name : String
  round : ℤ
  date : String
  positions_gained : ℚ
  fastestLapTime_s : ℚ
  fastestLapSpeed : ℚ
  fastestLap : Option ℚ
  gap_to_winner_s : Option ℚ
  gap_to_next_s : Option ℚ
  statusText : Option String
  status_weight : ℚ
  precipitation : Option ℚ
  wet_bonus : ℚ
  driver_name : Option String
  deriving DecidableEq, Repr

/-- Inner merge `results ⋈ races_f` on `raceId` (left row order preserved,
matching right rows in right order), together with the numeric cleaning:
`positions_gained = (grid - positionOrder).fillna(0)`,
`fastestLapTime_s = fastestLapTime.apply(convert_time_to_seconds).fillna(0)`,
`fastestLapSpeed = to_numeric(...).fillna(0)`. -/
def mergeResultsRaces (results : List ResultRow) (races_f : List RaceRow) : List BRow :=
  results.flatMap (fun r =>
    (races_f.filter (fun rc => decide (rc.raceId = r.raceId))).map (fun rc =>
      { raceId := r.raceId
        driverId := r.driverId
        grid := r.grid
        positionOrder := r.positionOrder
        milliseconds := r.milliseconds
        time := r.time
        fastestLapTime := r.fastestLapTime
        statusId := r.statusId
        year := rc.year
        name := rc.name
        round := rc.round
        date := rc.date
        positions_gained := ((r.grid.bind (fun gq => r.positionOrder.map (fun pq => gq - pq))).getD 0)
        fastestLapTime_s := ((r.fastestLapTime.bind convert_time_to_seconds).getD 0)
        fastestLapSpeed := r.fastestLapSpeed.getD 0
        fastestLap := r.fastestLap
        gap_to_winner_s := none
        gap_to_next_s := none
        statusText := none
        status_weight := 0
        precipitation := none
        wet_bonus := 0
        driver_name := none }))

/-- The `use_cols` projection feeding `add_position_gaps`. -/
def bGapRow (r : BRow) : GapRow :=
  ⟨r.raceId, r.driverId, r.positionOrder, r.time, r.milliseconds⟩

/-- `df = add_position_gaps(df)`: attach both gap columns. -/
def gapStage (rows : List BRow) : List BRow :=
  (add_position_gaps bGapRow rows).map
    (fun t => { t.1 with gap_to_winner_s := t.2.1, gap_to_next_s := t.2.2 })

/-- The fixed DNF/retirement status-id set of `build_driver_table`. -/
def dnf_ids : List ℤ :=
  [1, 2, 11, 12, 13, 14, 15, 16, 17, 18, 19, 45, 50, 128, 53, 55, 58, 88,
   111, 112, 113, 114, 115, 116, 117, 118, 119, 120, 122, 123, 124, 125, 127, 133, 134]

/-- The status stage: when the status table is nonempty, left-merge the
status text on `statusId` and set
`status_weight = 0 if pd.isna(sid) or sid in dnf_ids else 1`;
otherwise `status_weight = 1` for every row. -/
def statusStage (status : List StatusRow) (rows : List BRow) : List BRow :=
  if status.isEmpty then rows.map (fun r => { r with status_weight := 1 })
  else
    let merged := rows.flatMap (fun r =>
      match status.filter (fun s => decide (some s.statusId = r.statusId)) with
      | [] => [{ r with statusText := none }]
      | s :: ss => (s :: ss).map (fun s2 => { r with statusText := some s2.status }))
    merged.map (fun r =>
      { r with status_weight :=
          match r.statusId with
          | none => 0
          | some sid => if sid ∈ dnf_ids then 0 else 1 })

/-- The `wet_bonus_fn` closure: thresholds on precipitation, with a missing
value treated as `0`. -/
def wet_bonus_fn (p : Option ℚ) : ℚ :=
  let q := p.getD 0
  if 5 ≤ q ∧ q < 10 then 10
  else if 10 ≤ q ∧ q < 20 then 30
  else if 20 ≤ q ∧ q < 50 then 80
  else if 50 ≤ q then 100
  else 0

/-- The weather stage: when the weather table is nonempty, left-merge it on
`(name, date) = (GP, Date)`; otherwise the `Precipitation` column is created
as all-NaN.  Then `wet_bonus` is computed row-wise. -/
def weatherStage (weather : List WeatherRow) (rows : List BRow) : List BRow :=
  let merged :=
    if weather.isEmpty then rows.map (fun r => { r with precipitation := none })
    else rows.flatMap (fun r =>
      match weather.filter (fun w => decide (w.gp = r.name ∧ w.date = r.date)) with
      | [] => [{ r with precipitation := none }]
      | w :: ws => (w :: ws).map (fun w2 => { r with precipitation := w2.precipitation }))
  merged.map (fun r => { r with wet_bonus := wet_bonus_fn r.precipitation })

/-- The driver-name stage: left-merge `drivers[['driverId', forename+' '+surname]]`. -/
def driverNameStage (drivers : List DriverRow) (rows : List BRow) : List BRow :=
  rows.flatMap (fun r =>
    match drivers.filter (fun d => decide (d.driverId = r.driverId)) with
    | [] => [{ r with driver_name := none }]
    | d :: ds => (d :: ds).map
        (fun d2 => { r with driver_name := some (d2.forename ++ " " ++ d2.surname) }))

/-- Embedding of `analysis.build_driver_table`. -/
def build_driver_table (dfs : DFS) (min_year : ℤ) (wins_only : Bool) : List BRow :=
  let races_f := dfs.races.filter (fun rc => decide (min_year ≤ rc.year))
  let df1 := mergeResultsRaces dfs.results races_f
  let df2 := gapStage df1
  let df3 := if wins_only then df2.filter (fun r => decide (r.positionOrder = some 1)) else df2
  let df4 := statusStage dfs.status df3
  let df5 := weatherStage dfs.weather df4
  driverNameStage dfs.drivers df5

/-! ### Scoring and top-N selection (analysis.top_races_for_driver) -/

/-- A driver-frame row after the `ensure numeric` fills and the score
column: `gap_to_winner_s`/`gap_to_next_s` re-coerced with `fillna(0.0)`
(the other three listed columns are already filled rationals). -/
structure ScoredRow where
  row : BRow
  gap_to_winner_f : ℚ
  gap_to_next_f : ℚ
  score : ℚ
  deriving DecidableEq, Repr

/-- Fill the gap columns and compute the weighted score with the fixed
weight table `W`. -/
def scoreRow (r : BRow) : ScoredRow :=
  let gtwF := r.gap_to_winner_s.getD 0
  let gtnF := r.gap_to_next_s.getD 0
  { row := r
    gap_to_winner_f := gtwF
    gap_to_next_f := gtnF
    score :=
      r.positions_gained * 4.0 + gtnF * 1.2 + gtwF * (-2.0) +
        r.fastestLapTime_s * (-1.0) + r.fastestLapSpeed * 1.0 +
        r.status_weight * 1.0 + r.wet_bonus * 1.0 }

/-- The columns of the returned top-N table. -/
structure TopRow where
  year : ℤ
  round : ℤ
  name : String
  driver_name : Option String
  positionOrder : Option ℚ
  grid : Option ℚ
  positions_gained : ℚ
  gap_to_winner_s : ℚ
  gap_to_next_s : ℚ
  fastestLapTime_s : ℚ
  fastestLapSpeed : ℚ
  wet_bonus : ℚ
  score : ℚ
  deriving DecidableEq, Repr

/-- Column selection for the returned table. -/
def toTopRow (s : ScoredRow) : TopRow :=
  { year := s.row.year
    round := s.row.round
    name := s.row.name
    driver_name := s.row.driver_name
    positionOrder := s.row.positionOrder
    grid := s.row.grid
    positions_gained := s.row.positions_gained
    gap_to_winner_s := s.gap_to_winner_f
    gap_to_next_s := s.gap_to_next_f
    fastestLapTime_s := s.row.fastestLapTime_s
    fastestLapSpeed := s.row.fastestLapSpeed
    wet_bonus := s.row.wet_bonus
    score := s.score }

/-- Embedding of `analysis.top_races_for_driver`: build the driver table,
filter to the requested driver (an empty selection is returned as is),
fill the numeric columns, score, sort by score descending and keep the
first `n_top` rows. -/
def topRacesPool (dfs : DFS) (driver_name : String) (min_year : ℤ) (wins_only : Bool) :
    List BRow :=
  (build_driver_table dfs min_year wins_only).filter
    (fun r => decide (r.driver_name = some driver_name))

def top_races_for_driver (dfs : DFS) (driver_name : String) (n_top : ℕ)
    (min_year : ℤ) (wins_only : Bool) : List TopRow :=
  let dfd := topRacesPool dfs driver_name min_year wins_only
  if dfd.isEmpty then []
  else (((sort_values_desc (fun s => s.score) (dfd.map scoreRow)).take n_top).map toTopRow)

def exResult (rid : ℤ) : ResultRow :=
  { raceId := rid, driverId := 1, grid := some 1, positionOrder := some 1,
    milliseconds := some 1000, time := none, fastestLapTime := none,
    fastestLapSpeed := none, fastestLap := none, statusId := none }

def exDfsC2 : DFS :=
  { drivers := [⟨1, "Max", "V"⟩]
  , results := [exResult 10, exResult 11]
  , races := [⟨10, 2020, "GP1", 1, "d1"⟩, ⟨11, 2020, "GP2", 2, "d2"⟩]
  , status := []
  , weather := [] }

def exDfsC9 : DFS :=
  { drivers := [⟨1, "A", "B"⟩]
  , results := [exResult 10]
  , races := [⟨10, 2020, "GP1", 1, "d1"⟩]
  , status := [⟨3, "Finished"⟩]
  , weather := [] }

/-! ### Telemetry segmentation (modules/telemetry.py, analyze_topN_rich)

One lap's car data is a list of samples ordered as in the frame.  Only the
columns the segmentation masks under analysis read are modelled
(`Distance`, `Speed`, `DRS`); throttle/brake/time feed only the
acceleration and braking masks, which no analysed claim mentions. -/

/-- One telemetry sample of a lap. -/
structure CarSample where
  distance : ℚ
  speed : ℚ
  drs : Option ℚ
  deriving DecidableEq, Repr

/-- An all-`False` mask over the samples. -/
def falseMask (samples : List CarSample) : List Bool :=
  samples.map (fun _ => false)

/-- Pointwise disjunction (`mask1 |= mask2`). -/
def orMask (m1 m2 : List Bool) : List Bool :=
  m1.zipWith (fun a b => a || b) m2

/-- Pointwise conjunction (`mask1 & mask2`). -/
def andMask (m1 m2 : List Bool) : List Bool :=
  m1.zipWith (fun a b => a && b) m2

/-- Pointwise complement (`~mask`). -/
def notMask (m : List Bool) : List Bool :=
  m.map (fun b => !b)

/-- Embedding of `_segment_mask_by_distance`. -/
def segment_mask_by_distance (samples : List CarSample) (startD endD : ℚ) : List Bool :=
  samples.map (fun s => decide (startD ≤ s.distance) && decide (s.distance ≤ endD))

/-- The per-corner window test
`(dist >= d0 - corner_window_m) & (dist <= d0 + corner_window_m)`. -/
def cornerWindowMask (samples : List CarSample) (d0 w : ℚ) : List Bool :=
  samples.map (fun s => decide (d0 - w ≤ s.distance) && decide (s.distance ≤ d0 + w))

/-- The `is_corner` mask: union of every corner's window whose mask matches
at least one sample (`if mask.any()`). -/
def cornerMask (samples : List CarSample) (corners : List ℚ) (w : ℚ) : List Bool :=
  corners.foldl
    (fun acc d0 =>
      let m := cornerWindowMask samples d0 w
      if m.any id then orMask acc m else acc)
    (falseMask samples)

/-- The `is_straight` mask: `~is_corner`. -/
def straightMask (samples : List CarSample) (corners : List ℚ) (w : ℚ) : List Bool :=
  notMask (cornerMask samples corners w)

/-- Apex distances of the corners that matched at least one sample: the
third components of `apex_by_corner` (the recorded apex speeds feed only
the corner-class masks). -/
def apexDists (samples : List CarSample) (corners : List ℚ) (w : ℚ) : List ℚ :=
  corners.filter (fun d0 => (cornerWindowMask samples d0 w).any id)

/-- Embedding of `_safe_col(car_data, 'DRS')`: the column exists and has a
non-NaN entry. -/
def hasDrsCol (samples : List CarSample) : Bool :=
  samples.any (fun s => s.drs.isSome)

/-- The `is_drs` mask.  With a live DRS column: `(DRS > 0) & is_straight`;
otherwise the union of the DRS-zone distance windows (zones with a NaN
endpoint skipped), intersected with `is_straight`. -/
def drsMask (samples : List CarSample) (corners : List ℚ)
    (zones : List (Option ℚ × Option ℚ)) (w : ℚ) : List Bool :=
  let straight := straightMask samples corners w
  if hasDrsCol samples then
    andMask (samples.map (fun s => decide (0 < s.drs.getD 0))) straight
  else
    let zm := zones.foldl
      (fun acc z =>
        match z.1, z.2 with
        | some a, some b => orMask acc (segment_mask_by_distance samples (min a b) (max a b))
        | _, _ => acc)
      (falseMask samples)
    andMask zm straight

/-- The `is_nondrs` mask: `(~(DRS > 0)) & is_straight` with a live DRS
column, else `is_straight & ~is_drs`. -/
def nondrsMask (samples : List CarSample) (corners : List ℚ)
    (zones : List (Option ℚ × Option ℚ)) (w : ℚ) : List Bool :=
  let straight := straightMask samples corners w
  if hasDrsCol samples then
    andMask (samples.map (fun s => decide (¬ 0 < s.drs.getD 0))) straight
  else
    andMask straight (notMask (drsMask samples corners zones w))

/-- `dist[mask]`: the distances of the samples selected by a boolean mask. -/
def maskedVals (vals : List ℚ) (mask : List Bool) : List ℚ :=
  ((vals.zip mask).filter (fun p => p.2)).map (fun p => p.1)

/-- Minimum of a list of rationals (`Series.min`), `0` as the unused
default for the empty list. -/
def listMin : List ℚ → ℚ
  | [] => 0
  | x :: xs => xs.foldl min x

/-- Maximum of a list of rationals (`Series.max`), `0` as the unused
default for the empty list. -/
def listMax : List ℚ → ℚ
  | [] => 0
  | x :: xs => xs.foldl max x

/-- Embedding of the `coverage` closure of `analyze_topN_rich`:
`100 * (max(dist in mask) - min(dist in mask)) / (max dist - min dist)`,
`0` when there are no samples, the mask is empty, or the track length is
not positive. -/
def coverage (samples : List CarSample) (mask : List Bool) : ℚ :=
  let dist := samples.map (fun s => s.distance)
  if dist.isEmpty then 0
  else
    let covered := maskedVals dist mask
    if covered.isEmpty then 0
    else
      let len := listMax covered - listMin covered
      let total := listMax dist - listMin dist
      if 0 < total then 100 * len / total else 0

/-- The greedy extension of the complex loop: starting from group head `i`,
advance `j` while the next sorted apex is within `complex_span_m` of apex
`i` (`while j + 1 < L and dists[j + 1] - dists[i] <= complex_span_m`). -/
def extendGroup (d : List ℚ) (spanM : ℚ) (i j : ℕ) : ℕ :=
  if h : j + 1 < d.length then
    if d.getD (j + 1) 0 - d.getD i 0 ≤ spanM then extendGroup d spanM i (j + 1) else j
  else j
termination_by d.length - j

/-- The `is_complex` mask of `analyze_topN_rich`: with at least three
apexed corners, for every start index `i` into the ascending-sorted apex
list the greedy extension `j` is computed, and whenever the group
`[i..j]` holds at least three corners the region
`[dists[i] - corner_window_m, dists[j] + corner_window_m]` is or-ed in;
the outer loop then advances `i` by one (a sliding window, not a
partition). -/
def complexMask (samples : List CarSample) (corners : List ℚ) (w spanM : ℚ) : List Bool :=
  let apexes := apexDists samples corners w
  if 3 ≤ apexes.length then
    let d := sortValuesAsc id apexes
    (List.range d.length).foldl
      (fun acc i =>
        let j := extendGroup d spanM i i
        if 3 ≤ j - i + 1 then
          orMask acc (segment_mask_by_distance samples (d.getD i 0 - w) (d.getD j 0 + w))
        else acc)
      (falseMask samples)
  else falseMask samples

/-- The greedy extension never moves backwards. -/
theorem le_extendGroup (d : List ℚ) (spanM : ℚ) (i j : ℕ) : j ≤ extendGroup d spanM i j := by
  unfold extendGroup
  split
  · split
    · have ih := le_extendGroup d spanM i (j + 1)
      omega
    · exact Nat.le_refl j
  · exact Nat.le_refl j
termination_by d.length - j

/-- Greedy partition of the sorted apex list into groups, following the
spec sentence for corner-complex detection read as a partition: a group
starts at `i`, is extended while the span condition holds, and the next
group starts right after it.  This definition follows the spec's words and
exists only to be compared with the source-derived `complexMask`. -/
def specGroupsAux (d : List ℚ) (spanM : ℚ) (i : ℕ) : List (ℕ × ℕ) :=
  if h : i < d.length then
    let j := extendGroup d spanM i i
    (i, j) :: specGroupsAux d spanM (j + 1)
  else []
termination_by d.length - i
decreasing_by
  have := le_extendGroup d spanM i i
  omega

/-- Corner-complex mask as described by the spec sentence (groups form a
partition; groups of at least three corners mark
`[firstApex - cornerWindow, lastApex + cornerWindow]`). -/
def specComplexMask (samples : List CarSample) (corners : List ℚ) (w spanM : ℚ) : List Bool :=
  let d := sortValuesAsc id (apexDists samples corners w)
  (specGroupsAux d spanM 0).foldl
    (fun acc p =>
      if 3 ≤ p.2 - p.1 + 1 then
        orMask acc (segment_mask_by_distance samples (d.getD p.1 0 - w) (d.getD p.2 0 + w))
      else acc)
    (falseMask samples)

def exSamples (ds : List ℚ) : List CarSample :=
  ds.map (fun q => { distance := q, speed := 100, drs := none })

/-! ## General lemmas about the embedded operations -/

theorem sortValuesAsc_perm {α K : Type} [LinearOrder K] (key : α → K) (l : List α) :
    List.Perm (sortValuesAsc key l) l :=
  List.perm_insertionSort _ l

theorem sortValuesAsc_length {α K : Type} [LinearOrder K] (key : α → K) (l : List α) :
    (sortValuesAsc key l).length = l.length :=
  List.length_insertionSort _ l

theorem sorted_sortValuesAsc {α K : Type} [LinearOrder K] (key : α → K) (l : List α) :
    (sortValuesAsc key l).Sorted (fun a b => key a ≤ key b) := by
  haveI : IsTotal α (fun a b => key a ≤ key b) := ⟨fun a b => le_total _ _⟩
  haveI : IsTrans α (fun a b => key a ≤ key b) := ⟨fun _ _ _ h1 h2 => le_trans h1 h2⟩
  exact List.sorted_insertionSort _ l

theorem sort_values_desc_perm {α K : Type} [LinearOrder K] (key : α → K) (l : List α) :
    List.Perm (sort_values_desc key l) l :=
  (List.reverse_perm _).trans (sortValuesAsc_perm key l)

/-! ## Claim theorems -/

/-- Claim C8: `convert_time_to_seconds` parses `"1:23.456"` to `83.456`
seconds, maps each of the sentinels `"\\N"`, `""` and `"None"` to `None`,
and is total with an `Option` result, so a failed parse yields `None`
rather than an exception. -/
theorem convert_time_examples_and_totality :
    convert_time_to_seconds "1:23.456" = some (83.456 : ℚ) ∧
    convert_time_to_seconds "\\N" = none ∧
    convert_time_to_seconds "" = none ∧
    convert_time_to_seconds "None" = none ∧
    ∀ s : String, convert_time_to_seconds s = none ∨ ∃ q : ℚ, convert_time_to_seconds s = some q := by
  refine ⟨by with_unfolding_all rfl, by rfl, by rfl, by rfl, fun s => ?_⟩
  cases h : convert_time_to_seconds s
  · exact Or.inl rfl
  · exact Or.inr ⟨_, rfl⟩

/-- Claim C4: the straight mask is the pointwise complement of the corner
mask, for every sample sequence and corner configuration. -/
theorem straight_mask_complements_corner_mask (samples : List CarSample) (corners : List ℚ)
    (w : ℚ) (i : ℕ) :
    (straightMask samples corners w)[i]? =
      ((cornerMask samples corners w)[i]?).map (fun b => !b) := by
  simp [straightMask, notMask]

theorem attachGaps_nil (winMs : Option ℚ) : attachGaps winMs [] = [] := rfl

theorem attachGaps_single (winMs : Option ℚ) (r : GapRow) :
    attachGaps winMs [r] = [(r, gap_to_win winMs r, none)] := rfl

theorem attachGaps_cons_cons (winMs : Option ℚ) (r1 r2 : GapRow) (rest : List GapRow) :
    attachGaps winMs (r1 :: r2 :: rest) =
      (r1, gap_to_win winMs r1, optSub (gap_to_win winMs r2) (gap_to_win winMs r1)) ::
        attachGaps winMs (r2 :: rest) := rfl

theorem attachGaps_mem {winMs : Option ℚ} :
    ∀ {l : List GapRow} {r : GapRow} {w n : Option ℚ},
      (r, w, n) ∈ attachGaps winMs l → r ∈ l ∧ w = gap_to_win winMs r := by
  intro l
  induction l with
  | nil => intro r w n h; cases h
  | cons r0 rest ih =>
      intro r w n h
      cases rest with
      | nil =>
          rw [attachGaps_single] at h
          have h0 := List.mem_singleton.mp h
          have h1 : r = r0 := congrArg Prod.fst h0
          have hw : w = gap_to_win winMs r0 := congrArg (fun t => t.2.1) h0
          subst h1
          exact ⟨List.mem_cons_self _ _, hw⟩
      | cons r2 rest2 =>
          rw [attachGaps_cons_cons] at h
          rcases List.mem_cons.mp h with h0 | h0
          · have h1 : r = r0 := congrArg Prod.fst h0
            have hw : w = gap_to_win winMs r0 := congrArg (fun t => t.2.1) h0
            subst h1
            exact ⟨List.mem_cons_self _ _, hw⟩
          · obtain ⟨hmem, hw⟩ := ih h0
            exact ⟨List.mem_cons_of_mem _ hmem, hw⟩

theorem winnerMs_of_unique (g l : List GapRow) (r : GapRow) (hperm : List.Perm l g)
    (hr : r ∈ l) (hpos : r.positionOrder = some 1)
    (huniq : ∀ r2 ∈ g, r2.positionOrder = some 1 → r2 = r) :
    winnerMs l = r.milliseconds := by
  unfold winnerMs
  have hrf : r ∈ l.filter (fun r => decide (r.positionOrder = some 1)) :=
    List.mem_filter.mpr ⟨hr, by simp [hpos]⟩
  cases hf : l.filter (fun r => decide (r.positionOrder = some 1)) with
  | nil => rw [hf] at hrf; cases hrf
  | cons r0 rest =>
      have hr0 : r0 ∈ l.filter (fun r => decide (r.positionOrder = some 1)) := by
        rw [hf]; exact List.mem_cons_self _ _
      obtain ⟨hr0l, hr0p⟩ := List.mem_filter.mp hr0
      have hr0g : r0 ∈ g := hperm.mem_iff.mp hr0l
      have : r0 = r := huniq r0 hr0g (by simpa using hr0p)
      simp [this]

theorem gapFallback_winner (r : GapRow) (hpos : r.positionOrder = some 1) :
    gapFallback r.milliseconds r = some 0 := by
  unfold gapFallback
  cases hms : r.milliseconds with
  | none => simp [hpos]
  | some ms => simp [sub_self, zero_div, max_self]

theorem gap_to_win_time_none (winMs : Option ℚ) (row : GapRow) (h : row.time = none) :
    gap_to_win winMs row = gapFallback winMs row := by
  unfold gap_to_win
  rw [h]

theorem gap_to_win_time_some (winMs : Option ℚ) (row : GapRow) (t : String)
    (h : row.time = some t) :
    gap_to_win winMs row =
      if (pyStrip t.toList).headD ' ' = '+' then
        match convert_time_to_seconds t with
        | some sec => some sec
        | none => gapFallback winMs row
      else gapFallback winMs row := by
  unfold gap_to_win
  rw [h]

theorem gap_to_win_winner (r : GapRow) (hpos : r.positionOrder = some 1)
    (hplus : ∀ t, r.time = some t → (pyStrip t.toList).headD ' ' = '+' →
      convert_time_to_seconds t = none) :
    gap_to_win r.milliseconds r = some 0 := by
  have hfall := gapFallback_winner r hpos
  cases ht : r.time with
  | none => rw [gap_to_win_time_none _ _ ht]; exact hfall
  | some t =>
      rw [gap_to_win_time_some _ _ t ht]
      by_cases hp : (pyStrip t.toList).headD ' ' = '+'
      · rw [if_pos hp, hplus t ht hp]
        exact hfall
      · rw [if_neg hp]
        exact hfall

/-- Claim C1 (amended): in every race group whose winner
(`positionOrder = 1`) is unique and whose winner's time string is not a
parseable `'+'`-prefixed gap string, the winner's computed
`gap_to_winner_s` is `0`. -/
theorem winner_gap_zero_unless_plus_time (g : List GapRow) (r : GapRow) (w n : Option ℚ)
    (hmem : (r, w, n) ∈ compute_for_race g)
    (hpos : r.positionOrder = some 1)
    (huniq : ∀ r2 ∈ g, r2.positionOrder = some 1 → r2 = r)
    (hplus : ∀ t, r.time = some t → (pyStrip t.toList).headD ' ' = '+' →
      convert_time_to_seconds t = none) :
    w = some 0 := by
  have hmem2 : (r, w, n) ∈ attachGaps (winnerMs (sortValuesAsc poKey g)) (sortValuesAsc poKey g) :=
    hmem
  obtain ⟨hr, hw⟩ := attachGaps_mem hmem2
  have hwin : winnerMs (sortValuesAsc poKey g) = r.milliseconds :=
    winnerMs_of_unique g _ r (sortValuesAsc_perm poKey g) hr hpos huniq
  rw [hw, hwin]
  exact gap_to_win_winner r hpos hplus

/-- Claim C1, counterexample to the unconditional statement: a winner row
whose `time` cell is the parseable gap string `"+5.000"` receives
`gap_to_winner_s = 5`, not `0`. -/
theorem winner_gap_plus_time_counterexample :
    (add_position_gaps id [⟨1, 1, some 1, some "+5.000", some 1000⟩]).map (fun t => t.2.1) =
        [some 5] ∧
    ¬ (add_position_gaps id [⟨1, 1, some 1, some "+5.000", some 1000⟩]).map (fun t => t.2.1) =
        [some 0] := by
  constructor
  · with_unfolding_all rfl
  · with_unfolding_all decide

/-- Claim C1, witness: the hypotheses of the amended statement hold for the
winner of the example race, and its gap is `0`. -/
theorem winner_gap_zero_unless_plus_time_witness :
    ((⟨1, 11, some 1, none, some 5400000⟩, some (0 : ℚ), some (1.2 : ℚ)) ∈
        compute_for_race exRaceC3) ∧
    ((⟨1, 11, some 1, none, some 5400000⟩ : GapRow).positionOrder = some 1) ∧
    (∀ r2 ∈ exRaceC3, r2.positionOrder = some 1 → r2 = ⟨1, 11, some 1, none, some 5400000⟩) ∧
    (some (0 : ℚ) = some 0) := by
  have heq : compute_for_race exRaceC3 =
      [ (⟨1, 11, some 1, none, some 5400000⟩, some 0, some 1.2)
      , (⟨1, 12, some 2, none, some 5401200⟩, some 1.2, some 2.3)
      , (⟨1, 13, some 3, none, some 5403500⟩, some 3.5, none) ] := by
    with_unfolding_all rfl
  have h1 : (⟨1, 11, some 1, none, some 5400000⟩, some (0 : ℚ), some (1.2 : ℚ)) ∈
      compute_for_race exRaceC3 := by
    rw [heq]
    exact List.mem_cons_self _ _
  have h3 : ∀ r2 ∈ exRaceC3, r2.positionOrder = some 1 →
      r2 = (⟨1, 11, some 1, none, some 5400000⟩ : GapRow) := by
    intro r2 hr2 hp2
    have h23 : ¬ ((2 : ℚ) = 1) := by with_unfolding_all decide
    have h31 : ¬ ((3 : ℚ) = 1) := by with_unfolding_all decide
    rcases List.mem_cons.mp hr2 with h | h
    · rw [h]
    rcases List.mem_cons.mp h with h' | h'
    · rw [h'] at hp2
      exact absurd (Option.some.inj hp2) h23
    rcases List.mem_cons.mp h' with h'' | h''
    · rw [h''] at hp2
      exact absurd (Option.some.inj hp2) h31
    · cases h''
  exact ⟨h1, rfl, h3,
    winner_gap_zero_unless_plus_time exRaceC3 _ _ _ h1 rfl h3 (fun t ht => nomatch ht)⟩

theorem attachGaps_length (winMs : Option ℚ) :
    ∀ l : List GapRow, (attachGaps winMs l).length = l.length := by
  intro l
  induction l with
  | nil => rfl
  | cons r rest ih =>
      cases rest with
      | nil => rfl
      | cons r2 rest2 =>
          rw [attachGaps_cons_cons]
          simpa using ih

/-- Default row used with `List.getD` when indexing gap-engine output. -/
def gapDflt : GapRow × Option ℚ × Option ℚ :=
  (⟨0, 0, none, none, none⟩, none, none)

theorem attachGaps_gtn (winMs : Option ℚ) :
    ∀ (l : List GapRow) (i : ℕ), i + 1 < (attachGaps winMs l).length →
      ((attachGaps winMs l).getD i gapDflt).2.2 =
        optSub ((attachGaps winMs l).getD (i + 1) gapDflt).2.1
          ((attachGaps winMs l).getD i gapDflt).2.1 := by
  intro l
  induction l with
  | nil => intro i hi; simp [attachGaps_nil] at hi
  | cons r rest ih =>
      intro i hi
      cases rest with
      | nil =>
          rw [attachGaps_single] at hi
          simp at hi
      | cons r2 rest2 =>
          rw [attachGaps_cons_cons] at hi ⊢
          cases i with
          | zero =>
              have h0 : ((attachGaps winMs (r2 :: rest2)).getD 0 gapDflt).2.1 =
                  gap_to_win winMs r2 := by
                cases rest2 with
                | nil => rw [attachGaps_single]; rfl
                | cons r3 rest3 => rw [attachGaps_cons_cons]; rfl
              simp only [List.getD_cons_zero, List.getD_cons_succ]
              rw [h0]
          | succ i =>
              simp only [List.getD_cons_succ]
              exact ih i (by simpa using hi)

theorem attachGaps_last_gtn (winMs : Option ℚ) :
    ∀ l : List GapRow,
      ((attachGaps winMs l).getD ((attachGaps winMs l).length - 1) gapDflt).2.2 = none := by
  intro l
  induction l with
  | nil => rfl
  | cons r rest ih =>
      cases rest with
      | nil => rfl
      | cons r2 rest2 =>
          rw [attachGaps_cons_cons]
          have hlen : (attachGaps winMs (r2 :: rest2)).length = rest2.length + 1 := by
            rw [attachGaps_length]
            rfl
          rw [List.length_cons, hlen]
          have hidx : rest2.length + 1 + 1 - 1 = (rest2.length + 1 - 1) + 1 := by omega
          rw [hidx, List.getD_cons_succ, ← hlen]
          exact ih

/-- Claim C3: within each race group (sorted by finishing order),
`gap_to_next_s` at rank `i` is `gap_to_winner_s` at rank `i + 1` minus
`gap_to_winner_s` at rank `i` (NaN-propagating), the last entry's
`gap_to_next_s` is NaN, and the spec's example race with milliseconds
`[5400000, 5401200, 5403500]` yields `gap_to_winner_s = [0, 1.2, 3.5]` and
`gap_to_next_s = [1.2, 2.3, NaN]`. -/
theorem gap_to_next_shift_and_example :
    (∀ (g : List GapRow) (i : ℕ), i + 1 < (compute_for_race g).length →
      ((compute_for_race g).getD i gapDflt).2.2 =
        optSub ((compute_for_race g).getD (i + 1) gapDflt).2.1
          ((compute_for_race g).getD i gapDflt).2.1) ∧
    (∀ g : List GapRow, compute_for_race g ≠ [] →
      ((compute_for_race g).getD ((compute_for_race g).length - 1) gapDflt).2.2 = none) ∧
    compute_for_race exRaceC3 =
      [ (⟨1, 11, some 1, none, some 5400000⟩, some 0, some 1.2)
      , (⟨1, 12, some 2, none, some 5401200⟩, some 1.2, some 2.3)
      , (⟨1, 13, some 3, none, some 5403500⟩, some 3.5, none) ] := by
  refine ⟨?_, ?_, by with_unfolding_all rfl⟩
  · intro g i hi
    exact attachGaps_gtn _ _ i hi
  · intro g _
    exact attachGaps_last_gtn _ _

/-- Claim C3, witness: both hypotheses are satisfied on the example race. -/
theorem gap_to_next_shift_and_example_witness :
    (0 + 1 < (compute_for_race exRaceC3).length ∧
      ((compute_for_race exRaceC3).getD 0 gapDflt).2.2 =
        optSub ((compute_for_race exRaceC3).getD (0 + 1) gapDflt).2.1
          ((compute_for_race exRaceC3).getD 0 gapDflt).2.1) ∧
    (compute_for_race exRaceC3 ≠ [] ∧
      ((compute_for_race exRaceC3).getD ((compute_for_race exRaceC3).length - 1) gapDflt).2.2 =
        none) := by
  have hthm := gap_to_next_shift_and_example
  have hi : 0 + 1 < (compute_for_race exRaceC3).length := by
    rw [hthm.2.2]
    decide
  have hne : compute_for_race exRaceC3 ≠ [] := by
    rw [hthm.2.2]
    decide
  exact ⟨⟨hi, hthm.1 exRaceC3 0 hi⟩, ⟨hne, hthm.2.1 exRaceC3 hne⟩⟩

theorem map_fst_attachGaps (winMs : Option ℚ) :
    ∀ l : List GapRow, (attachGaps winMs l).map Prod.fst = l := by
  intro l
  induction l with
  | nil => rfl
  | cons r rest ih =>
      cases rest with
      | nil => rfl
      | cons r2 rest2 =>
          rw [attachGaps_cons_cons, List.map_cons, ih]

theorem compute_for_race_fst_perm (g : List GapRow) :
    List.Perm ((compute_for_race g).map Prod.fst) g := by
  have h : (compute_for_race g).map Prod.fst = sortValuesAsc poKey g := map_fst_attachGaps _ _
  rw [h]
  exact sortValuesAsc_perm poKey g

theorem countP_gapBlock (g : List GapRow) (rid rc dr : ℤ) :
    ((compute_for_race (g.filter (fun r => decide (r.raceId = rid)))).map
        (fun t => GapOut.mk t.1.raceId t.1.driverId t.2.1 t.2.2)).countP
      (fun o => decide (o.raceId = rc ∧ o.driverId = dr)) =
    if rid = rc then g.countP (fun r => decide (r.raceId = rc ∧ r.driverId = dr)) else 0 := by
  rw [List.countP_map]
  have h1 :
      ((compute_for_race (g.filter (fun r => decide (r.raceId = rid)))).countP
        ((fun o => decide (o.raceId = rc ∧ o.driverId = dr)) ∘
          (fun t => GapOut.mk t.1.raceId t.1.driverId t.2.1 t.2.2))) =
      ((compute_for_race (g.filter (fun r => decide (r.raceId = rid)))).map Prod.fst).countP
        (fun r => decide (r.raceId = rc ∧ r.driverId = dr)) := by
    rw [List.countP_map]
    rfl
  rw [h1, (compute_for_race_fst_perm _).countP_eq, List.countP_filter]
  by_cases hr : rid = rc
  · subst hr
    rw [if_pos rfl]
    refine List.countP_congr (fun r _ => ?_)
    by_cases h2 : r.raceId = rid ∧ r.driverId = dr
    · simp [h2, h2.1]
    · by_cases h3 : r.raceId = rid
      · simp [h2, h3]
      · simp [h3, fun (hc : r.raceId = rid ∧ r.driverId = dr) => h3 hc.1]
  · rw [if_neg hr]
    refine (List.countP_eq_zero).mpr (fun r _ => ?_)
    intro hc
    rcases Bool.and_eq_true .. ▸ hc with ⟨ha, hb⟩
    exact hr ((of_decide_eq_true hb) ▸ (of_decide_eq_true ha).1.symm ▸ rfl)

theorem countP_gapOut (g : List GapRow) (rc dr : ℤ) :
    ∀ ids : List ℤ, ids.Nodup →
      ((ids.flatMap (fun rid =>
          (compute_for_race (g.filter (fun r => decide (r.raceId = rid)))).map
            (fun t => GapOut.mk t.1.raceId t.1.driverId t.2.1 t.2.2))).countP
        (fun o => decide (o.raceId = rc ∧ o.driverId = dr))) =
      if rc ∈ ids then g.countP (fun r => decide (r.raceId = rc ∧ r.driverId = dr)) else 0 := by
  intro ids
  induction ids with
  | nil => intro _; simp
  | cons rid ids' ih =>
      intro hnd
      rw [List.flatMap_cons, List.countP_append, countP_gapBlock,
        ih (List.Nodup.of_cons hnd)]
      by_cases hr : rid = rc
      · subst hr
        have hnotin : rid ∉ ids' := (List.nodup_cons.mp hnd).1
        rw [if_pos rfl, if_neg hnotin, if_pos (List.mem_cons_self _ _)]
        omega
      · rw [if_neg hr]
        by_cases hm : rc ∈ ids'
        · rw [if_pos hm, if_pos (List.mem_cons_of_mem _ hm)]
          omega
        · rw [if_neg hm, if_neg (fun hc => by
            rcases List.mem_cons.mp hc with h | h
            · exact hr h.symm
            · exact hm h)]

theorem countP_eq_one_of_nodup_mem {β : Type} [DecidableEq β] :
    ∀ {l : List β} {b : β}, l.Nodup → b ∈ l → l.countP (fun x => decide (x = b)) = 1 := by
  intro l
  induction l with
  | nil => intro b _ hb; cases hb
  | cons a t ih =>
      intro b hn hb
      rw [List.countP_cons]
      rcases List.mem_cons.mp hb with hba | hbt
      · subst hba
        have hnotin : b ∉ t := (List.nodup_cons.mp hn).1
        have h0 : t.countP (fun x => decide (x = b)) = 0 :=
          List.countP_eq_zero.mpr (fun x hx hdec =>
            hnotin (of_decide_eq_true hdec ▸ hx))
        simp [h0]
      · have hba : b ≠ a := by
          intro hc
          subst hc
          exact (List.nodup_cons.mp hn).1 hbt
        have h1 := ih (List.Nodup.of_cons hn) hbt
        have h2 : ¬ a = b := fun hc => hba hc.symm
        simp [h1, h2]

theorem flatMap_id_of_mem {α : Type} :
    ∀ (l : List α) (f : α → List α), (∀ a ∈ l, f a = [a]) → l.flatMap f = l := by
  intro l f
  induction l with
  | nil => intro _; rfl
  | cons a t ih =>
      intro h
      rw [List.flatMap_cons, h a (List.mem_cons_self _ _),
        ih (fun b hb => h b (List.mem_cons_of_mem _ hb))]
      rfl

/-- Claim C10: when no `(raceId, driverId)` pair repeats, `add_position_gaps`
returns exactly the input rows, in order, with only the two gap columns
attached (the first component of every output row is the untouched input
row). -/
theorem add_position_gaps_frame_property {α : Type} (proj : α → GapRow) (rows : List α)
    (h : ((rows.map proj).map (fun r => (r.raceId, r.driverId))).Nodup) :
    (add_position_gaps proj rows).map Prod.fst = rows := by
  unfold add_position_gaps
  rw [List.map_flatMap]
  refine flatMap_id_of_mem rows _ (fun a ha => ?_)
  have hprojmem : proj a ∈ rows.map proj := List.mem_map_of_mem proj ha
  have hnodids : (gapRaceIds (rows.map proj)).Nodup := by
    unfold gapRaceIds
    exact ((sortValuesAsc_perm id _).nodup_iff).mpr (List.nodup_dedup _)
  have hrcmem : (proj a).raceId ∈ gapRaceIds (rows.map proj) := by
    unfold gapRaceIds
    exact ((sortValuesAsc_perm id _).mem_iff).mpr
      (List.mem_dedup.mpr (List.mem_map_of_mem _ hprojmem))
  have hkeymem : ((proj a).raceId, (proj a).driverId) ∈
      (rows.map proj).map (fun r => (r.raceId, r.driverId)) :=
    List.mem_map_of_mem _ hprojmem
  have hcount : ((rows.map proj).map (fun r => (r.raceId, r.driverId))).countP
      (fun k => decide (k = ((proj a).raceId, (proj a).driverId))) = 1 :=
    countP_eq_one_of_nodup_mem h hkeymem
  rw [List.countP_map] at hcount
  have hcnt1 : (rows.map proj).countP
      (fun r => decide (r.raceId = (proj a).raceId ∧ r.driverId = (proj a).driverId)) = 1 := by
    rw [← hcount]
    refine List.countP_congr (fun r _ => ?_)
    simp [Prod.ext_iff]
  have hout1 : (gapOutBlocks (rows.map proj) (gapRaceIds (rows.map proj))).countP
      (fun o => decide (o.raceId = (proj a).raceId ∧ o.driverId = (proj a).driverId)) = 1 := by
    unfold gapOutBlocks
    rw [countP_gapOut _ _ _ _ hnodids, if_pos hrcmem]
    exact hcnt1
  have hflen : ((gapOutBlocks (rows.map proj) (gapRaceIds (rows.map proj))).filter
      (fun o => decide (o.raceId = (proj a).raceId ∧ o.driverId = (proj a).driverId))).length =
      1 := by
    rw [← List.countP_eq_length_filter]
    exact hout1
  cases hf : (gapOutBlocks (rows.map proj) (gapRaceIds (rows.map proj))).filter
      (fun o => decide (o.raceId = (proj a).raceId ∧ o.driverId = (proj a).driverId)) with
  | nil =>
      rw [hf] at hflen
      simp at hflen
  | cons m ms =>
      have hms : ms = [] := by
        rw [hf] at hflen
        simpa using hflen
      subst hms
      unfold gapMergeRow
      rw [hf]
      rfl

/-- Claim C10, witness: the example race has no repeated
`(raceId, driverId)` pair, and the gap-extended frame keeps its rows. -/
theorem add_position_gaps_frame_property_witness :
    ((exRaceC3.map id).map (fun r => (r.raceId, r.driverId))).Nodup ∧
    (add_position_gaps id exRaceC3).map Prod.fst = exRaceC3 := by
  have hn : ((exRaceC3.map id).map (fun r => (r.raceId, r.driverId))).Nodup := by decide
  exact ⟨hn, add_position_gaps_frame_property id exRaceC3 hn⟩

theorem sort_values_desc_length {α K : Type} [LinearOrder K] (key : α → K) (l : List α) :
    (sort_values_desc key l).length = l.length := by
  unfold sort_values_desc
  rw [List.length_reverse, sortValuesAsc_length]

/-- Claim C7: `top_races_for_driver` returns `min n_top poolSize` rows and,
when the pool holds at most `n_top` rows, exactly the pool's rows (as a
permutation of the scored pool); an empty pool yields an empty table.  The
embedding is total, so no input raises. -/
theorem top_races_length_min_and_underfull_perm (dfs : DFS) (name : String) (n_top : ℕ)
    (min_year : ℤ) (wins_only : Bool) :
    (top_races_for_driver dfs name n_top min_year wins_only).length =
      min n_top (topRacesPool dfs name min_year wins_only).length ∧
    ((topRacesPool dfs name min_year wins_only).length ≤ n_top →
      List.Perm (top_races_for_driver dfs name n_top min_year wins_only)
        ((topRacesPool dfs name min_year wins_only).map (fun r => toTopRow (scoreRow r)))) := by
  by_cases he : (topRacesPool dfs name min_year wins_only).isEmpty
  · have hnil : topRacesPool dfs name min_year wins_only = [] := List.isEmpty_iff.mp he
    constructor
    · simp [top_races_for_driver, he, hnil]
    · intro _
      simp [top_races_for_driver, he, hnil]
  · have hne : top_races_for_driver dfs name n_top min_year wins_only =
        ((sort_values_desc (fun s => s.score)
          ((topRacesPool dfs name min_year wins_only).map scoreRow)).take n_top).map toTopRow := by
      simp [top_races_for_driver, he]
    have hslen : (sort_values_desc (fun s => s.score)
        ((topRacesPool dfs name min_year wins_only).map scoreRow)).length =
        (topRacesPool dfs name min_year wins_only).length := by
      rw [sort_values_desc_length, List.length_map]
    constructor
    · rw [hne, List.length_map, List.length_take, hslen]
    · intro hlen
      rw [hne, List.take_of_length_le (by rw [hslen]; exact hlen)]
      have hperm := (sort_values_desc_perm (fun s : ScoredRow => s.score)
        ((topRacesPool dfs name min_year wins_only).map scoreRow)).map toTopRow
      refine hperm.trans ?_
      rw [List.map_map]
      exact List.Perm.refl _

/-- Claim C7, witness: a pool of one row queried with `n_top = 3` returns
exactly that row. -/
theorem top_races_length_min_and_underfull_perm_witness :
    (topRacesPool exDfsC9 "A B" 2018 false).length ≤ 3 ∧
    (top_races_for_driver exDfsC9 "A B" 3 2018 false).length =
      min 3 (topRacesPool exDfsC9 "A B" 2018 false).length ∧
    List.Perm (top_races_for_driver exDfsC9 "A B" 3 2018 false)
      ((topRacesPool exDfsC9 "A B" 2018 false).map (fun r => toTopRow (scoreRow r))) := by
  have hl : (topRacesPool exDfsC9 "A B" 2018 false).length = 1 := by
    with_unfolding_all rfl
  have hle : (topRacesPool exDfsC9 "A B" 2018 false).length ≤ 3 := by omega
  have hthm := top_races_length_min_and_underfull_perm exDfsC9 "A B" 3 2018 false
  exact ⟨hle, hthm.1, hthm.2 hle⟩

theorem filter_orderedInsert_of_key_eq {α K : Type} [LinearOrder K] (key : α → K) (k : K)
    (x : α) (hx : key x = k) :
    ∀ t : List α,
      ((t.orderedInsert (fun a b => key a ≤ key b) x).filter (fun a => decide (key a = k))) =
        x :: t.filter (fun a => decide (key a = k)) := by
  intro t
  induction t with
  | nil => simp [List.orderedInsert, hx]
  | cons b bs ih =>
      simp only [List.orderedInsert]
      by_cases hb : key x ≤ key b
      · rw [if_pos hb]
        simp [hx]
      · have hlt : key b < key x := lt_of_not_le hb
        have hbk : ¬ key b = k := by
          rw [← hx]
          exact ne_of_lt hlt
        rw [if_neg hb, List.filter_cons, List.filter_cons]
        simp [hbk, ih]

theorem filter_orderedInsert_of_key_ne {α K : Type} [LinearOrder K] (key : α → K) (k : K)
    (x : α) (hx : ¬ key x = k) :
    ∀ t : List α,
      ((t.orderedInsert (fun a b => key a ≤ key b) x).filter (fun a => decide (key a = k))) =
        t.filter (fun a => decide (key a = k)) := by
  intro t
  induction t with
  | nil => simp [List.orderedInsert, hx]
  | cons b bs ih =>
      simp only [List.orderedInsert]
      by_cases hb : key x ≤ key b
      · rw [if_pos hb]
        simp [hx]
      · rw [if_neg hb, List.filter_cons, List.filter_cons]
        by_cases hbk : key b = k
        · simp [hbk, ih]
        · simp [hbk, ih]

theorem sortValuesAsc_filter_key {α K : Type} [LinearOrder K] (key : α → K) (k : K) :
    ∀ l : List α,
      (sortValuesAsc key l).filter (fun a => decide (key a = k)) =
        l.filter (fun a => decide (key a = k)) := by
  intro l
  induction l with
  | nil => rfl
  | cons x l ih =>
      have hstep : sortValuesAsc key (x :: l) =
          (sortValuesAsc key l).orderedInsert (fun a b => key a ≤ key b) x := rfl
      rw [hstep]
      by_cases hx : key x = k
      · rw [filter_orderedInsert_of_key_eq key k x hx, ih]
        simp [hx]
      · rw [filter_orderedInsert_of_key_ne key k x hx, ih]
        simp [hx]

/-- Claim C2 (amended): within the faithfulness domain of the model (pools
of at most 16 rows, where numpy's introsort is its stable insertion sort),
the descending score sort used by `top_races_for_driver` is a permutation
of its input sorted by descending key, it is deterministic (it is a pure
function of its input), and rows with equal key come out in REVERSED input
order, because pandas implements `ascending=False` by reversing a stable
ascending argsort. -/
theorem sort_values_desc_sorted_ties_reversed {α K : Type} [LinearOrder K] (key : α → K)
    (l : List α) (_h16 : l.length ≤ 16) :
    List.Perm (sort_values_desc key l) l ∧
    (sort_values_desc key l).Sorted (fun a b => key b ≤ key a) ∧
    ∀ k : K, (sort_values_desc key l).filter (fun a => decide (key a = k)) =
      (l.filter (fun a => decide (key a = k))).reverse := by
  refine ⟨sort_values_desc_perm key l, ?_, ?_⟩
  · unfold sort_values_desc
    exact List.pairwise_reverse.mpr (sorted_sortValuesAsc key l)
  · intro k
    unfold sort_values_desc
    rw [List.filter_reverse, sortValuesAsc_filter_key]

/-- Claim C2, counterexample to the stable-tie-order statement: two races of
the same driver with identical results score identically (both 1), the
driver's pool lists round 1 before round 2, yet `top_races_for_driver`
returns round 2 before round 1 — equal-score rows in reversed, not
original, order. -/
theorem top_races_equal_scores_reversed_counterexample :
    ((topRacesPool exDfsC2 "Max V" 2018 false).map (fun r => r.round) = [1, 2]) ∧
    ((top_races_for_driver exDfsC2 "Max V" 3 2018 false).map (fun t => t.score) = [1, 1]) ∧
    ((top_races_for_driver exDfsC2 "Max V" 3 2018 false).map (fun t => t.round) = [2, 1]) ∧
    ¬ ((top_races_for_driver exDfsC2 "Max V" 3 2018 false).map (fun t => t.round) = [1, 2]) := by
  refine ⟨by with_unfolding_all rfl, by with_unfolding_all rfl, by with_unfolding_all rfl, ?_⟩
  intro hc
  have h21 : (top_races_for_driver exDfsC2 "Max V" 3 2018 false).map (fun t => t.round) =
      [2, 1] := by with_unfolding_all rfl
  rw [h21] at hc
  simp at hc

/-- Claim C2, witness: the amended sort description instantiated on a
three-element list with a tie. -/
theorem sort_values_desc_sorted_ties_reversed_witness :
    ([(1 : ℚ), 1, 2].length ≤ 16) ∧
    (List.Perm (sort_values_desc id [(1 : ℚ), 1, 2]) [(1 : ℚ), 1, 2] ∧
      (sort_values_desc id [(1 : ℚ), 1, 2]).Sorted (fun a b => id b ≤ id a) ∧
      ∀ k : ℚ, (sort_values_desc id [(1 : ℚ), 1, 2]).filter (fun a => decide (id a = k)) =
        ([(1 : ℚ), 1, 2].filter (fun a => decide (id a = k))).reverse) :=
  ⟨by decide, sort_values_desc_sorted_ties_reversed id [(1 : ℚ), 1, 2] (by decide)⟩

theorem weatherStage_status (weather : List WeatherRow) (rows : List BRow) (r : BRow)
    (hr : r ∈ weatherStage weather rows) :
    ∃ r0 ∈ rows, r.status_weight = r0.status_weight ∧ r.statusId = r0.statusId := by
  unfold weatherStage at hr
  rcases List.mem_map.mp hr with ⟨r1, hr1, hre⟩
  subst hre
  by_cases hw : weather.isEmpty
  · rw [if_pos hw] at hr1
    rcases List.mem_map.mp hr1 with ⟨r0, hr0, hre0⟩
    subst hre0
    exact ⟨r0, hr0, rfl, rfl⟩
  · rw [if_neg hw] at hr1
    rcases List.mem_flatMap.mp hr1 with ⟨r0, hr0, hrin⟩
    cases hf : weather.filter (fun w => decide (w.gp = r0.name ∧ w.date = r0.date)) with
    | nil =>
        rw [hf] at hrin
        have := List.mem_singleton.mp hrin
        subst this
        exact ⟨r0, hr0, rfl, rfl⟩
    | cons w ws =>
        rw [hf] at hrin
        rcases List.mem_map.mp hrin with ⟨w2, _, hre2⟩
        subst hre2
        exact ⟨r0, hr0, rfl, rfl⟩

theorem driverNameStage_status (drivers : List DriverRow) (rows : List BRow) (r : BRow)
    (hr : r ∈ driverNameStage drivers rows) :
    ∃ r0 ∈ rows, r.status_weight = r0.status_weight ∧ r.statusId = r0.statusId := by
  unfold driverNameStage at hr
  rcases List.mem_flatMap.mp hr with ⟨r0, hr0, hrin⟩
  cases hf : drivers.filter (fun d => decide (d.driverId = r0.driverId)) with
  | nil =>
      rw [hf] at hrin
      have := List.mem_singleton.mp hrin
      subst this
      exact ⟨r0, hr0, rfl, rfl⟩
  | cons d ds =>
      rw [hf] at hrin
      rcases List.mem_map.mp hrin with ⟨d2, _, hre2⟩
      subst hre2
      exact ⟨r0, hr0, rfl, rfl⟩

theorem statusStage_weight (status : List StatusRow) (rows : List BRow) (r : BRow)
    (hr : r ∈ statusStage status rows) :
    r.status_weight =
      if status.isEmpty then 1
      else
        match r.statusId with
        | none => 0
        | some sid => if sid ∈ dnf_ids then 0 else 1 := by
  unfold statusStage at hr
  by_cases hs : status.isEmpty
  · rw [if_pos hs] at hr
    rw [if_pos hs]
    rcases List.mem_map.mp hr with ⟨r0, _, hre⟩
    subst hre
    rfl
  · rw [if_neg hs] at hr
    rw [if_neg hs]
    rcases List.mem_map.mp hr with ⟨r1, _, hre⟩
    subst hre
    rfl

/-- Claim C9 (amended): with a nonempty status table every built row's
`status_weight` is `0` when its `statusId` is missing OR in the fixed DNF
set, else `1`; with an absent (empty) status table it is `1` for every
row.  The claim's "1 unless statusId is in the set" misses the missing-id
case. -/
theorem status_weight_characterization (dfs : DFS) (min_year : ℤ) (wins_only : Bool)
    (r : BRow) (hr : r ∈ build_driver_table dfs min_year wins_only) :
    r.status_weight =
      if dfs.status.isEmpty then 1
      else
        match r.statusId with
        | none => 0
        | some sid => if sid ∈ dnf_ids then 0 else 1 := by
  have hr5 : r ∈ driverNameStage dfs.drivers
      (weatherStage dfs.weather
        (statusStage dfs.status
          (if wins_only then
            (gapStage (mergeResultsRaces dfs.results
              (dfs.races.filter (fun rc => decide (min_year ≤ rc.year))))).filter
                (fun r => decide (r.positionOrder = some 1))
          else
            gapStage (mergeResultsRaces dfs.results
              (dfs.races.filter (fun rc => decide (min_year ≤ rc.year))))))) := hr
  obtain ⟨r1, hr1, hsw1, hsid1⟩ := driverNameStage_status _ _ _ hr5
  obtain ⟨r2, hr2, hsw2, hsid2⟩ := weatherStage_status _ _ _ hr1
  have hw := statusStage_weight _ _ _ hr2
  rw [hsw1, hsw2, hw, ← hsid2, ← hsid1]

/-- Claim C9, counterexample: with a nonempty status table, a row whose
`statusId` is missing gets `status_weight = 0`, while the claim assigns
`1` to every `statusId` outside the DNF set. -/
theorem status_weight_missing_id_counterexample :
    (build_driver_table exDfsC9 2018 false).map (fun r => r.status_weight) = [0] ∧
    ¬ ((0 : ℚ) = 1) := by
  constructor
  · with_unfolding_all rfl
  · with_unfolding_all decide

/-- The single row built from `exDfsC9`. -/
def exBRowC9 : BRow :=
  { raceId := 10, driverId := 1, grid := some 1, positionOrder := some 1,
    milliseconds := some 1000, time := none, fastestLapTime := none, statusId := none,
    year := 2020, name := "GP1", round := 1, date := "d1",
    positions_gained := 0, fastestLapTime_s := 0, fastestLapSpeed := 0, fastestLap := none,
    gap_to_winner_s := some 0, gap_to_next_s := none, statusText := none, status_weight := 0,
    precipitation := none, wet_bonus := 0, driver_name := some "A B" }

/-- Claim C9, witness: the characterization instantiated on the built row
of the example tables. -/
theorem status_weight_characterization_witness :
    (exBRowC9 ∈ build_driver_table exDfsC9 2018 false) ∧
    exBRowC9.status_weight =
      (if exDfsC9.status.isEmpty then 1
       else
         match exBRowC9.statusId with
         | none => 0
         | some sid => if sid ∈ dnf_ids then 0 else 1) := by
  have heq : build_driver_table exDfsC9 2018 false = [exBRowC9] := by
    with_unfolding_all rfl
  have hmem : exBRowC9 ∈ build_driver_table exDfsC9 2018 false := by
    rw [heq]
    exact List.mem_singleton.mpr rfl
  exact ⟨hmem, status_weight_characterization exDfsC9 2018 false exBRowC9 hmem⟩

theorem maskedVals_andMask_right_sublist :
    ∀ (vals : List ℚ) (m1 m2 : List Bool),
      List.Sublist (maskedVals vals (andMask m1 m2)) (maskedVals vals m2) := by
  intro vals
  induction vals with
  | nil => intro m1 m2; simp [maskedVals]
  | cons v vs ih =>
      intro m1 m2
      cases m1 with
      | nil => simp [maskedVals, andMask]
      | cons a as =>
          cases m2 with
          | nil => simp [maskedVals, andMask]
          | cons b bs =>
              simp only [maskedVals, andMask, List.zipWith_cons_cons, List.zip_cons_cons,
                List.filter_cons, List.map_cons]
              cases ha : a <;> cases hb : b <;> simp
              · exact ih as bs
              · exact List.Sublist.cons v (ih as bs)
              · exact ih as bs
              · exact ih as bs

theorem maskedVals_andMask_left_sublist :
    ∀ (vals : List ℚ) (m1 m2 : List Bool),
      List.Sublist (maskedVals vals (andMask m1 m2)) (maskedVals vals m1) := by
  intro vals
  induction vals with
  | nil => intro m1 m2; simp [maskedVals]
  | cons v vs ih =>
      intro m1 m2
      cases m1 with
      | nil => simp [maskedVals, andMask]
      | cons a as =>
          cases m2 with
          | nil => simp [maskedVals, andMask]
          | cons b bs =>
              simp only [maskedVals, andMask, List.zipWith_cons_cons, List.zip_cons_cons,
                List.filter_cons, List.map_cons]
              cases ha : a <;> cases hb : b <;> simp
              · exact ih as bs
              · exact ih as bs
              · exact List.Sublist.cons v (ih as bs)
              · exact ih as bs

theorem le_foldl_max : ∀ (xs : List ℚ) (a : ℚ), a ≤ xs.foldl max a := by
  intro xs
  induction xs with
  | nil => intro a; exact le_refl a
  | cons y ys ih => intro a; exact le_trans (le_max_left a y) (ih (max a y))

theorem mem_le_foldl_max : ∀ (xs : List ℚ) (a x : ℚ), x ∈ xs → x ≤ xs.foldl max a := by
  intro xs
  induction xs with
  | nil => intro a x hx; cases hx
  | cons y ys ih =>
      intro a x hx
      rcases List.mem_cons.mp hx with h | h
      · subst h
        exact le_trans (le_max_right a x) (le_foldl_max ys (max a x))
      · exact ih (max a y) x h

theorem le_listMax (l : List ℚ) (x : ℚ) (hx : x ∈ l) : x ≤ listMax l := by
  cases l with
  | nil => cases hx
  | cons y ys =>
      rcases List.mem_cons.mp hx with h | h
      · subst h
        exact le_foldl_max ys x
      · exact mem_le_foldl_max ys y x h

theorem foldl_min_le : ∀ (xs : List ℚ) (a : ℚ), xs.foldl min a ≤ a := by
  intro xs
  induction xs with
  | nil => intro a; exact le_refl a
  | cons y ys ih => intro a; exact le_trans (ih (min a y)) (min_le_left a y)

theorem foldl_min_le_mem : ∀ (xs : List ℚ) (a x : ℚ), x ∈ xs → xs.foldl min a ≤ x := by
  intro xs
  induction xs with
  | nil => intro a x hx; cases hx
  | cons y ys ih =>
      intro a x hx
      rcases List.mem_cons.mp hx with h | h
      · subst h
        exact le_trans (foldl_min_le ys (min a x)) (min_le_right a x)
      · exact ih (min a y) x h

theorem listMin_le (l : List ℚ) (x : ℚ) (hx : x ∈ l) : listMin l ≤ x := by
  cases l with
  | nil => cases hx
  | cons y ys =>
      rcases List.mem_cons.mp hx with h | h
      · subst h
        exact foldl_min_le ys x
      · exact foldl_min_le_mem ys y x h

theorem listMin_le_listMax (l : List ℚ) (h : l ≠ []) : listMin l ≤ listMax l := by
  cases l with
  | nil => exact absurd rfl h
  | cons y ys =>
      exact le_trans (listMin_le _ y (List.mem_cons_self _ _))
        (le_listMax _ y (List.mem_cons_self _ _))

theorem listMax_mem : ∀ (l : List ℚ), l ≠ [] → listMax l ∈ l := by
  have hfold : ∀ (xs : List ℚ) (a : ℚ), xs.foldl max a = a ∨ xs.foldl max a ∈ xs := by
    intro xs
    induction xs with
    | nil => intro a; exact Or.inl rfl
    | cons y ys ih =>
        intro a
        rcases ih (max a y) with h | h
        · rcases max_choice a y with hm | hm
          · exact Or.inl (h.trans hm)
          · refine Or.inr ?_
            show List.foldl max (max a y) ys ∈ y :: ys
            rw [h, hm]
            exact List.mem_cons_self _ _
        · exact Or.inr (List.mem_cons_of_mem _ h)
  intro l h
  cases l with
  | nil => exact absurd rfl h
  | cons y ys =>
      rcases hfold ys y with h1 | h1
      · rw [show listMax (y :: ys) = ys.foldl max y from rfl, h1]
        exact List.mem_cons_self _ _
      · exact List.mem_cons_of_mem _ h1

theorem listMin_mem : ∀ (l : List ℚ), l ≠ [] → listMin l ∈ l := by
  have hfold : ∀ (xs : List ℚ) (a : ℚ), xs.foldl min a = a ∨ xs.foldl min a ∈ xs := by
    intro xs
    induction xs with
    | nil => intro a; exact Or.inl rfl
    | cons y ys ih =>
        intro a
        rcases ih (min a y) with h | h
        · rcases min_choice a y with hm | hm
          · exact Or.inl (h.trans hm)
          · refine Or.inr ?_
            show List.foldl min (min a y) ys ∈ y :: ys
            rw [h, hm]
            exact List.mem_cons_self _ _
        · exact Or.inr (List.mem_cons_of_mem _ h)
  intro l h
  cases l with
  | nil => exact absurd rfl h
  | cons y ys =>
      rcases hfold ys y with h1 | h1
      · rw [show listMin (y :: ys) = ys.foldl min y from rfl, h1]
        exact List.mem_cons_self _ _
      · exact List.mem_cons_of_mem _ h1

theorem span_mono (c1 c2 : List ℚ) (hsub : List.Sublist c1 c2) (h1 : c1 ≠ []) :
    listMax c1 - listMin c1 ≤ listMax c2 - listMin c2 := by
  have hss := hsub.subset
  have h2 : c2 ≠ [] := by
    intro hc
    subst hc
    exact h1 (List.sublist_nil.mp hsub)
  have hmax : listMax c1 ≤ listMax c2 := le_listMax c2 _ (hss (listMax_mem c1 h1))
  have hmin : listMin c2 ≤ listMin c1 := listMin_le c2 _ (hss (listMin_mem c1 h1))
  linarith

theorem coverage_nonneg (samples : List CarSample) (mask : List Bool) :
    0 ≤ coverage samples mask := by
  unfold coverage
  by_cases hd : (samples.map (fun s => s.distance)).isEmpty
  · simp [hd]
  · rw [if_neg hd]
    by_cases hc : (maskedVals (samples.map (fun s => s.distance)) mask).isEmpty
    · simp [hc]
    · rw [if_neg hc]
      by_cases ht : 0 < listMax (samples.map (fun s => s.distance)) -
          listMin (samples.map (fun s => s.distance))
      · rw [if_pos ht]
        have hspan : 0 ≤ listMax (maskedVals (samples.map (fun s => s.distance)) mask) -
            listMin (maskedVals (samples.map (fun s => s.distance)) mask) := by
          have := listMin_le_listMax _ (by simpa [List.isEmpty_iff] using hc)
          linarith
        exact div_nonneg (by linarith) (le_of_lt ht)
      · rw [if_neg ht]

theorem coverage_mono (samples : List CarSample) (m1 m2 : List Bool)
    (hsub : List.Sublist (maskedVals (samples.map (fun s => s.distance)) m1)
      (maskedVals (samples.map (fun s => s.distance)) m2)) :
    coverage samples m1 ≤ coverage samples m2 := by
  by_cases hd : (samples.map (fun s => s.distance)).isEmpty
  · unfold coverage
    simp [hd]
  · by_cases hc1 : (maskedVals (samples.map (fun s => s.distance)) m1).isEmpty
    · have h0 : coverage samples m1 = 0 := by
        unfold coverage
        rw [if_neg hd, if_pos hc1]
      rw [h0]
      exact coverage_nonneg samples m2
    · have hc2 : ¬ (maskedVals (samples.map (fun s => s.distance)) m2).isEmpty := by
        intro hc
        rw [List.isEmpty_iff] at hc hc1
        rw [hc] at hsub
        exact hc1 (List.sublist_nil.mp hsub)
      have hspan := span_mono _ _ hsub (by simpa [List.isEmpty_iff] using hc1)
      unfold coverage
      simp only []
      rw [if_neg hd, if_neg hc1, if_neg hd, if_neg hc2]
      by_cases ht : 0 < listMax (samples.map (fun s => s.distance)) -
          listMin (samples.map (fun s => s.distance))
      · rw [if_pos ht, if_pos ht]
        exact div_le_div_of_nonneg_right
          (mul_le_mul_of_nonneg_left hspan (by norm_num : (0 : ℚ) ≤ 100)) (le_of_lt ht)
      · rw [if_neg ht, if_neg ht]

/-- Claim C5 (amended): the DRS and non-DRS coverages are each at most the
straight coverage (both masks are intersections with the straight mask, and
span-based coverage is monotone under mask restriction); their SUM can
exceed the straight coverage, so only the pointwise bounds hold. -/
theorem coverage_drs_nondrs_le_straight (samples : List CarSample) (corners : List ℚ)
    (zones : List (Option ℚ × Option ℚ)) (w : ℚ) :
    coverage samples (drsMask samples corners zones w) ≤
      coverage samples (straightMask samples corners w) ∧
    coverage samples (nondrsMask samples corners zones w) ≤
      coverage samples (straightMask samples corners w) := by
  constructor
  · unfold drsMask
    by_cases hcol : hasDrsCol samples
    · rw [if_pos hcol]
      exact coverage_mono _ _ _ (maskedVals_andMask_right_sublist _ _ _)
    · rw [if_neg hcol]
      exact coverage_mono _ _ _ (maskedVals_andMask_right_sublist _ _ _)
  · unfold nondrsMask
    by_cases hcol : hasDrsCol samples
    · rw [if_pos hcol]
      exact coverage_mono _ _ _ (maskedVals_andMask_right_sublist _ _ _)
    · rw [if_neg hcol]
      exact coverage_mono _ _ _ (maskedVals_andMask_left_sublist _ _ _)

/-- Claim C5, counterexample to the additivity bound: with straight samples
at distances 0, 3, 7, 10 and two degenerate DRS zones at 0 and at 10, the
DRS mask covers the whole lap (100%), the non-DRS mask covers 40%, and the
straight mask covers 100%: 140 > 100. -/
theorem coverage_additivity_counterexample :
    ¬ (coverage (exSamples [0, 3, 7, 10])
          (drsMask (exSamples [0, 3, 7, 10]) [] [(some 0, some 0), (some 10, some 10)] 30) +
        coverage (exSamples [0, 3, 7, 10])
          (nondrsMask (exSamples [0, 3, 7, 10]) [] [(some 0, some 0), (some 10, some 10)] 30) ≤
        coverage (exSamples [0, 3, 7, 10]) (straightMask (exSamples [0, 3, 7, 10]) [] 30)) := by
  have h1 : coverage (exSamples [0, 3, 7, 10])
      (drsMask (exSamples [0, 3, 7, 10]) [] [(some 0, some 0), (some 10, some 10)] 30) = 100 := by
    with_unfolding_all rfl
  have h2 : coverage (exSamples [0, 3, 7, 10])
      (nondrsMask (exSamples [0, 3, 7, 10]) [] [(some 0, some 0), (some 10, some 10)] 30) =
      40 := by
    with_unfolding_all rfl
  have h3 : coverage (exSamples [0, 3, 7, 10])
      (straightMask (exSamples [0, 3, 7, 10]) [] 30) = 100 := by
    with_unfolding_all rfl
  rw [h1, h2, h3]
  norm_num

theorem extendGroup_lt_length (d : List ℚ) (spanM : ℚ) (i j : ℕ) (hj : j < d.length) :
    extendGroup d spanM i j < d.length := by
  unfold extendGroup
  split
  · split
    · rename_i h _
      exact extendGroup_lt_length d spanM i (j + 1) h
    · exact hj
  · exact hj
termination_by d.length - j

theorem extendGroup_span (d : List ℚ) (spanM : ℚ) (i j : ℕ) :
    extendGroup d spanM i j = j ∨
      d.getD (extendGroup d spanM i j) 0 - d.getD i 0 ≤ spanM := by
  unfold extendGroup
  split
  · split
    · rename_i h hc
      rcases extendGroup_span d spanM i (j + 1) with h1 | h1
      · right
        rw [h1]
        exact hc
      · right
        exact h1
    · left
      rfl
  · left
    rfl
termination_by d.length - j

theorem sorted_getD_mono (d : List ℚ) (hsort : d.Sorted (fun a b : ℚ => a ≤ b)) (i j : ℕ)
    (hij : i ≤ j) (hj : j < d.length) : d.getD i 0 ≤ d.getD j 0 := by
  have hi : i < d.length := Nat.lt_of_le_of_lt hij hj
  rw [List.getD_eq_get _ _ hi, List.getD_eq_get _ _ hj]
  rcases Nat.lt_or_ge i j with hlt | hge
  · exact hsort.rel_get_of_lt hlt
  · have : i = j := le_antisymm hij hge
    subst this
    exact le_refl _

theorem extendGroup_reach (d : List ℚ) (spanM : ℚ) (i : ℕ)
    (hsort : d.Sorted (fun a b : ℚ => a ≤ b)) (j0 j : ℕ) (hle : j0 ≤ j) (hlt : j < d.length)
    (hspan : d.getD j 0 - d.getD i 0 ≤ spanM) : j ≤ extendGroup d spanM i j0 := by
  by_cases heq : j0 = j
  · subst heq
    exact le_extendGroup d spanM i j0
  · have hlt0 : j0 < j := lt_of_le_of_ne hle heq
    have hstep : j0 + 1 < d.length := by omega
    have hmono : d.getD (j0 + 1) 0 ≤ d.getD j 0 := sorted_getD_mono d hsort _ _ (by omega) hlt
    have hcond : d.getD (j0 + 1) 0 - d.getD i 0 ≤ spanM := by linarith
    have hunfold : extendGroup d spanM i j0 = extendGroup d spanM i (j0 + 1) := by
      conv_lhs => rw [extendGroup]
      rw [dif_pos hstep, if_pos hcond]
    rw [hunfold]
    exact extendGroup_reach d spanM i hsort (j0 + 1) j (by omega) hlt hspan
termination_by j - j0

theorem falseMask_getD (samples : List CarSample) (k : ℕ) :
    (falseMask samples).getD k false = false := by
  induction samples generalizing k with
  | nil => rfl
  | cons s ss ih =>
      cases k with
      | zero => rfl
      | succ k => exact ih k

theorem falseMask_length (samples : List CarSample) :
    (falseMask samples).length = samples.length := by
  simp [falseMask]

theorem segment_mask_length (samples : List CarSample) (a b : ℚ) :
    (segment_mask_by_distance samples a b).length = samples.length := by
  simp [segment_mask_by_distance]

theorem segment_mask_getD (samples : List CarSample) (a b : ℚ) (k : ℕ)
    (hk : k < samples.length) :
    (segment_mask_by_distance samples a b).getD k false =
      (decide (a ≤ (samples.getD k ⟨0, 0, none⟩).distance) &&
        decide ((samples.getD k ⟨0, 0, none⟩).distance ≤ b)) := by
  have hk2 : k < (segment_mask_by_distance samples a b).length := by
    rw [segment_mask_length]
    exact hk
  rw [List.getD_eq_getElem _ _ hk2, List.getD_eq_getElem _ _ hk]
  simp [segment_mask_by_distance]

theorem orMask_length (m1 m2 : List Bool) :
    (orMask m1 m2).length = min m1.length m2.length := by
  simp [orMask]

theorem orMask_getD_eq (m1 m2 : List Bool) (k : ℕ) (h1 : k < m1.length) (h2 : k < m2.length) :
    (orMask m1 m2).getD k false = (m1.getD k false || m2.getD k false) := by
  induction m1 generalizing m2 k with
  | nil => cases h1
  | cons a as ih =>
      cases m2 with
      | nil => cases h2
      | cons b bs =>
          cases k with
          | zero => rfl
          | succ k =>
              have := ih bs k (by simpa using h1) (by simpa using h2)
              simpa [orMask] using this

theorem complexFold_length (samples : List CarSample) (d : List ℚ) (w spanM : ℚ) :
    ∀ (L : List ℕ) (acc : List Bool), acc.length = samples.length →
      ((L.foldl (fun acc i =>
          let j := extendGroup d spanM i i
          if 3 ≤ j - i + 1 then
            orMask acc (segment_mask_by_distance samples (d.getD i 0 - w) (d.getD j 0 + w))
          else acc) acc).length = samples.length) := by
  intro L
  induction L with
  | nil => intro acc h; exact h
  | cons i0 L' ih =>
      intro acc h
      rw [List.foldl_cons]
      refine ih _ ?_
      by_cases hc : 3 ≤ extendGroup d spanM i0 i0 - i0 + 1
      · simp only [hc, if_true]
        rw [orMask_length, segment_mask_length, h]
        exact Nat.min_self _
      · simpa only [hc, if_false] using h

theorem complexFold_true_iff (samples : List CarSample) (d : List ℚ) (w spanM : ℚ) :
    ∀ (L : List ℕ) (acc : List Bool) (k : ℕ), acc.length = samples.length →
      k < samples.length →
      (((L.foldl (fun acc i =>
          let j := extendGroup d spanM i i
          if 3 ≤ j - i + 1 then
            orMask acc (segment_mask_by_distance samples (d.getD i 0 - w) (d.getD j 0 + w))
          else acc) acc).getD k false = true) ↔
        (acc.getD k false = true ∨
          ∃ i ∈ L, 3 ≤ extendGroup d spanM i i - i + 1 ∧
            (segment_mask_by_distance samples (d.getD i 0 - w)
              (d.getD (extendGroup d spanM i i) 0 + w)).getD k false = true)) := by
  intro L
  induction L with
  | nil =>
      intro acc k hlen hk
      simp
  | cons i0 L' ih =>
      intro acc k hlen hk
      rw [List.foldl_cons]
      simp only []
      by_cases hc : 3 ≤ extendGroup d spanM i0 i0 - i0 + 1
      · rw [if_pos hc]
        have hlen2 : (orMask acc (segment_mask_by_distance samples (d.getD i0 0 - w)
            (d.getD (extendGroup d spanM i0 i0) 0 + w))).length = samples.length := by
          rw [orMask_length, segment_mask_length, hlen]
          exact Nat.min_self _
        rw [ih _ k hlen2 hk]
        rw [orMask_getD_eq _ _ k (by rw [hlen]; exact hk)
          (by rw [segment_mask_length]; exact hk)]
        constructor
        · rintro (hor | ⟨i, hiL, hcond, hseg⟩)
          · rcases Bool.or_eq_true .. ▸ hor with h | h
            · exact Or.inl h
            · exact Or.inr ⟨i0, List.mem_cons_self _ _, hc, h⟩
          · exact Or.inr ⟨i, List.mem_cons_of_mem _ hiL, hcond, hseg⟩
        · rintro (hacc | ⟨i, hiL, hcond, hseg⟩)
          · refine Or.inl ?_
            rw [hacc]
            rfl
          · rcases List.mem_cons.mp hiL with hi0 | hiL2
            · subst hi0
              refine Or.inl ?_
              rw [hseg]
              simp
            · exact Or.inr ⟨i, hiL2, hcond, hseg⟩
      · rw [if_neg hc]
        rw [ih _ k hlen hk]
        constructor
        · rintro (hacc | ⟨i, hiL, hcond, hseg⟩)
          · exact Or.inl hacc
          · exact Or.inr ⟨i, List.mem_cons_of_mem _ hiL, hcond, hseg⟩
        · rintro (hacc | ⟨i, hiL, hcond, hseg⟩)
          · exact Or.inl hacc
          · rcases List.mem_cons.mp hiL with hi0 | hiL2
            · subst hi0
              exact absurd hcond hc
            · exact Or.inr ⟨i, hiL2, hcond, hseg⟩

/-- Claim C6 (amended): a sample is in the corner-complex mask exactly when
some group of at least three of the ascending-sorted apexes, whose total
span is at most `complexSpan`, reaches it with the `cornerWindow` margins:
the loop restarts a group at EVERY corner (a sliding window), not only at
the boundaries of a greedy partition. -/
theorem complex_mask_sliding_window_characterization (samples : List CarSample)
    (corners : List ℚ) (w spanM : ℚ) (k : ℕ) (hk : k < samples.length) :
    ((complexMask samples corners w spanM).getD k false = true ↔
      ∃ i j : ℕ, i + 2 ≤ j ∧ j < (sortValuesAsc id (apexDists samples corners w)).length ∧
        (sortValuesAsc id (apexDists samples corners w)).getD j 0 -
          (sortValuesAsc id (apexDists samples corners w)).getD i 0 ≤ spanM ∧
        (sortValuesAsc id (apexDists samples corners w)).getD i 0 - w ≤
          (samples.getD k ⟨0, 0, none⟩).distance ∧
        (samples.getD k ⟨0, 0, none⟩).distance ≤
          (sortValuesAsc id (apexDists samples corners w)).getD j 0 + w) := by
  unfold complexMask
  simp only []
  set d := sortValuesAsc id (apexDists samples corners w) with hd
  have hsort : d.Sorted (fun a b : ℚ => a ≤ b) := sorted_sortValuesAsc id _
  by_cases hlen : 3 ≤ (apexDists samples corners w).length
  · rw [if_pos hlen]
    rw [complexFold_true_iff samples d w spanM (List.range d.length) (falseMask samples) k
      (falseMask_length samples) hk]
    rw [falseMask_getD]
    simp only [Bool.false_eq_true, false_or]
    constructor
    · rintro ⟨i, hiR, hcond, hseg⟩
      have hiL : i < d.length := List.mem_range.mp hiR
      have hji : i ≤ extendGroup d spanM i i := le_extendGroup d spanM i i
      have hjlt : extendGroup d spanM i i < d.length := extendGroup_lt_length d spanM i i hiL
      have hij2 : i + 2 ≤ extendGroup d spanM i i := by omega
      have hspan : d.getD (extendGroup d spanM i i) 0 - d.getD i 0 ≤ spanM := by
        rcases extendGroup_span d spanM i i with h | h
        · rw [h] at hij2
          omega
        · exact h
      rw [segment_mask_getD _ _ _ k hk] at hseg
      rcases Bool.and_eq_true .. ▸ hseg with ⟨h1, h2⟩
      exact ⟨i, extendGroup d spanM i i, hij2, hjlt, hspan,
        of_decide_eq_true h1, of_decide_eq_true h2⟩
    · rintro ⟨i, j, hij2, hjlt, hspan, hx1, hx2⟩
      have hiL : i < d.length := by omega
      have hreach : j ≤ extendGroup d spanM i i :=
        extendGroup_reach d spanM i hsort i j (by omega) hjlt hspan
      have hjlt2 : extendGroup d spanM i i < d.length := extendGroup_lt_length d spanM i i hiL
      refine ⟨i, List.mem_range.mpr hiL, by omega, ?_⟩
      rw [segment_mask_getD _ _ _ k hk]
      have hmono : d.getD j 0 ≤ d.getD (extendGroup d spanM i i) 0 :=
        sorted_getD_mono d hsort j _ hreach hjlt2
      have hx2b : (samples.getD k ⟨0, 0, none⟩).distance ≤
          d.getD (extendGroup d spanM i i) 0 + w := by linarith
      rw [decide_eq_true hx1, decide_eq_true hx2b]
      rfl
  · rw [if_neg hlen]
    rw [falseMask_getD]
    constructor
    · intro h
      cases h
    · rintro ⟨i, j, hij2, hjlt, _⟩
      have hdl : d.length = (apexDists samples corners w).length := sortValuesAsc_length id _
      omega

/-- Claim C6, counterexample to the partition reading: corners at
0, 100, 200, 300, 400 with `complexSpan = 300`, `cornerWindow = 30`.  The
greedy partition forms the single qualifying group 0..300 and marks
`[-30, 330]`, leaving the samples at 390 and 400 unmarked; the code's
sliding loop also starts groups at 100 and 200, marking up to `430`. -/
theorem complex_mask_partition_counterexample :
    (complexMask (exSamples [0, 100, 200, 300, 390, 400]) [0, 100, 200, 300, 400] 30 300 =
      [true, true, true, true, true, true]) ∧
    (specComplexMask (exSamples [0, 100, 200, 300, 390, 400]) [0, 100, 200, 300, 400] 30 300 =
      [true, true, true, true, false, false]) ∧
    ¬ (complexMask (exSamples [0, 100, 200, 300, 390, 400]) [0, 100, 200, 300, 400] 30 300 =
        specComplexMask (exSamples [0, 100, 200, 300, 390, 400])
          [0, 100, 200, 300, 400] 30 300) := by
  have h1 : complexMask (exSamples [0, 100, 200, 300, 390, 400]) [0, 100, 200, 300, 400] 30 300 =
      [true, true, true, true, true, true] := by with_unfolding_all rfl
  have h2 : specComplexMask (exSamples [0, 100, 200, 300, 390, 400])
      [0, 100, 200, 300, 400] 30 300 = [true, true, true, true, false, false] := by
    with_unfolding_all rfl
  refine ⟨h1, h2, ?_⟩
  intro hc
  rw [h1, h2] at hc
  simp at hc

/-- Claim C6, witness: the characterization instantiated at the sample at
distance 390 of the counterexample lap, reached by the sliding group of
apexes 100..400. -/
theorem complex_mask_sliding_window_characterization_witness :
    (4 < (exSamples [0, 100, 200, 300, 390, 400]).length) ∧
    ((complexMask (exSamples [0, 100, 200, 300, 390, 400])
      [0, 100, 200, 300, 400] 30 300).getD 4 false = true) := by
  have hk : 4 < (exSamples [0, 100, 200, 300, 390, 400]).length := by
    with_unfolding_all decide
  refine ⟨hk, ?_⟩
  refine (complex_mask_sliding_window_characterization
    (exSamples [0, 100, 200, 300, 390, 400]) [0, 100, 200, 300, 400] 30 300 4 hk).mpr
    ⟨1, 4, ?_, ?_, ?_, ?_, ?_⟩
  · with_unfolding_all decide
  · with_unfolding_all decide
  · with_unfolding_all decide
  · with_unfolding_all decide
  · with_unfolding_all decide
